import Mathlib

/-!
Shallow embedding of the `chscn` scanning cursor (src/lib.rs): the `Position`
line/column tracker and the `Text` cursor with one-codepoint lookahead, marker
checkpointing and slice extraction.

Modelling conventions:
- Rust `Chars<'a>` iterators are modelled as the `List Char` of codepoints they
  have yet to yield; cloning an iterator copies that list.
- `Counter` (`u32` in the source) is modelled as `Nat`; counter overflow is out
  of scope of the claims considered here.
- Byte lengths (`str::len`, `char::len_utf8`) are computed explicitly from the
  UTF-8 encoding width of each codepoint.
- Rust panics (failed `assert!`, `usize` subtraction underflow, `Option::unwrap`
  on `None`) are modelled as the `none` outcome of an `Option` result.
- Mutating methods become functions `Text → ... → Text` (or pairs with their
  return value).
-/

namespace Chscn

/-- Embeds `Position` (line/column, both 1-based once inside a text). -/
structure Position where
  line : Nat
  column : Nat
deriving Repr, DecidableEq

namespace Position

/-- Embeds `Position::with`. -/
def with_lc (line column : Nat) : Position :=
  { line := line, column := column }

/-- Embeds `Position::new`: the invalid sentinel position (0, 0). -/
def new : Position :=
  with_lc 0 0

/-- Embeds `Position::advance_char`: `self.column += 1`. -/
def advance_char (p : Position) : Position :=
  { p with column := p.column + 1 }

/-- Embeds `Position::advance_line`: `self.line += 1; self.column = 1`. -/
def advance_line (p : Position) : Position :=
  { line := p.line + 1, column := 1 }

end Position

/-- Embeds `char::len_utf8`: the number of bytes of the UTF-8 encoding. -/
def len_utf8 (c : Char) : Nat :=
  if c.toNat < 0x80 then 1
  else if c.toNat < 0x800 then 2
  else if c.toNat < 0x10000 then 3
  else 4

/-- Byte length of a codepoint sequence, as `str::len` of the corresponding
UTF-8 string. -/
def byteLen (s : List Char) : Nat :=
  (s.map len_utf8).sum

/-- Embeds `str::get(0..len)` followed by `unwrap`: returns the prefix whose
UTF-8 encoding is exactly `n` bytes long, or `none` (a panic in the source)
when `n` is not a character boundary or exceeds the string length. -/
def takeBytes : List Char → Nat → Option (List Char)
  | _, 0 => some []
  | [], _ + 1 => none
  | c :: cs, n + 1 =>
    if len_utf8 c ≤ n + 1 then
      (takeBytes cs (n + 1 - len_utf8 c)).map (fun l => c :: l)
    else
      none

/-- Embeds `Text<'a>`. `iter` is the underlying `Chars` iterator (the
codepoints it has yet to yield); `next` is the one-codepoint lookahead buffer;
`marker` is the optional saved clone of `iter`. -/
structure Text where
  iter : List Char
  position : Position
  next : Option Char
  marker : Option (List Char)
  last_was_cr : Bool
deriving Repr, DecidableEq

namespace Text

/-- Embeds `Text::with_str`. -/
def with_str (text : List Char) : Text :=
  { iter := text, position := Position.with_lc 1 1,
    next := none, marker := none, last_was_cr := false }

/-- Embeds `Text::peek_next`: fills the lookahead buffer from `iter` when it is
empty, and returns its content without consuming it. -/
def peek_next (t : Text) : Option Char × Text :=
  match t.next with
  | some c => (some c, t)
  | none =>
    match t.iter with
    | [] => (none, t)
    | c :: rest => (some c, { t with next := some c, iter := rest })

/-- Embeds `Text::set_marker`: `self.marker = Some(self.iter.clone())`.
Note that the lookahead buffer `next` is not taken into account. -/
def set_marker (t : Text) : Text :=
  { t with marker := some t.iter }

/-- Embeds `Text::clear_marker`. -/
def clear_marker (t : Text) : Text :=
  { t with marker := none }

/-- Embeds `Text::has_marker`. -/
def has_marker (t : Text) : Bool :=
  t.marker.isSome

/-- The signed value of the source's length computation in
`Text::slice_from_marker` for a stored marker `m`:
`s.len() - self.iter.as_str().len() [- ch.len_utf8()]` carried out in ℤ.
A negative value means the `usize` arithmetic in the source underflows. -/
def slice_len (t : Text) (m : List Char) : Int :=
  match t.next with
  | some ch => (byteLen m : Int) - (byteLen t.iter : Int) - (len_utf8 ch : Int)
  | none => (byteLen m : Int) - (byteLen t.iter : Int)

/-- Embeds `Text::slice_from_marker`. `none` models a panic: the
`assert!(self.has_marker())`, the `usize` subtraction underflow (debug panic,
or wrap followed by the failing `assert!(len <= s.len())` in release), or
`s.get(0..len).unwrap()` on a non-boundary index. -/
def slice_from_marker (t : Text) : Option (List Char) :=
  match t.marker with
  | none => none
  | some m =>
    let len := slice_len t m
    if len < 0 then none
    else if (byteLen m : Int) < len then none
    else takeBytes m len.toNat

/-- Embeds `Text::advance_position` (the line-break classification rule). -/
def advance_position (t : Text) (ch : Char) : Text :=
  if ch = '\x0d' then
    { t with last_was_cr := true, position := t.position.advance_line }
  else if ch = '\x0a' then
    if !t.last_was_cr then
      { t with position := t.position.advance_line, last_was_cr := false }
    else
      t
  else if ch = '\x0b' then
    { t with position := { t.position with line := t.position.line + 1 },
             last_was_cr := false }
  else if ch = '\x0c' ∨ ch = '\x85' ∨ ch = '\u2028' ∨ ch = '\u2029' then
    { t with last_was_cr := false, position := t.position.advance_line }
  else
    { t with last_was_cr := false, position := t.position.advance_char }

/-- Embeds `<Text as Iterator>::next`: takes the lookahead buffer if filled,
otherwise pulls from the underlying iterator; on success updates the position
by the line-break classification rule. -/
def consume (t : Text) : Option Char × Text :=
  match t.next with
  | some c => (some c, advance_position { t with next := none } c)
  | none =>
    match t.iter with
    | [] => (none, t)
    | c :: rest => (some c, advance_position { t with iter := rest } c)

end Text

/-- The public mutating operations of the cursor, used to quantify over
arbitrary call interleavings. -/
inductive Op where
  | consume
  | peek
  | setMarker
  | clearMarker
deriving Repr, DecidableEq

/-- Applies one public operation, discarding its return value. -/
def applyOp (t : Text) : Op → Text
  | Op.consume => (t.consume).snd
  | Op.peek => (t.peek_next).snd
  | Op.setMarker => t.set_marker
  | Op.clearMarker => t.clear_marker

/-- Runs a sequence of public operations from a cursor state. -/
def run (t : Text) : List Op → Text
  | [] => t
  | op :: ops => run (applyOp t op) ops

/-- The cursor state after `n` further `peek_next` calls. -/
def peeks (t : Text) : Nat → Text
  | 0 => t
  | n + 1 => ((peeks t n).peek_next).snd

end Chscn

namespace Chscn

/-! ### Helper lemmas about the cursor operations -/

/-- `peek_next` never changes the position. -/
theorem peek_next_position (t : Text) : ((t.peek_next).snd).position = t.position := by
  obtain ⟨it, pos, nx, mk, cr⟩ := t
  cases nx
  · cases it <;> rfl
  · rfl

/-- A second `peek_next` right after a first one returns the same value and
leaves the state unchanged. -/
theorem peek_next_peek_next (t : Text) :
    ((t.peek_next).snd).peek_next = ((t.peek_next).fst, (t.peek_next).snd) := by
  obtain ⟨it, pos, nx, mk, cr⟩ := t
  cases nx
  · cases it <;> rfl
  · rfl

/-- The position and CR-flag effect of `advance_position` depends only on the
position, the CR flag and the consumed character, not on the other fields. -/
theorem advance_position_pos_cr (it it' : List Char) (nx nx' : Option Char)
    (mk mk' : Option (List Char)) (pos : Position) (cr : Bool) (c : Char) :
    ((Text.mk it pos nx mk cr).advance_position c).position
      = ((Text.mk it' pos nx' mk' cr).advance_position c).position ∧
    ((Text.mk it pos nx mk cr).advance_position c).last_was_cr
      = ((Text.mk it' pos nx' mk' cr).advance_position c).last_was_cr := by
  unfold Text.advance_position
  split_ifs <;> simp

/-- When `consume` yields a character, the new position and CR flag are as
computed by `advance_position` on the previous state. -/
theorem consume_some_position (t t' : Text) (c : Char) (h : t.consume = (some c, t')) :
    t'.position = ((t.advance_position c)).position ∧
    t'.last_was_cr = ((t.advance_position c)).last_was_cr := by
  obtain ⟨it, pos, nx, mk, cr⟩ := t
  cases nx with
  | some c0 =>
    have h1 : some c0 = some c := congrArg Prod.fst h
    have h2 := congrArg Prod.snd h
    cases h1
    cases h2
    exact advance_position_pos_cr it it none (some c) mk mk pos cr c
  | none =>
    cases it with
    | nil => exact absurd (congrArg Prod.fst h) (by simp [Text.consume])
    | cons c0 rest =>
      have h1 : some c0 = some c := congrArg Prod.fst h
      have h2 := congrArg Prod.snd h
      cases h1
      cases h2
      exact advance_position_pos_cr rest (c :: rest) none none mk mk pos cr c

/-- Consuming a CR advances the line and sets the CR flag. -/
theorem advance_position_cr (t : Text) :
    (t.advance_position '\x0d').position = t.position.advance_line ∧
    (t.advance_position '\x0d').last_was_cr = true := by
  unfold Text.advance_position
  simp

/-- Consuming an LF while the CR flag is set leaves the state unchanged
(in particular the flag stays set). -/
theorem advance_position_lf_of_cr (t : Text) (h : t.last_was_cr = true) :
    t.advance_position '\x0a' = t := by
  unfold Text.advance_position
  simp [h]

/-- Consuming a vertical tab bumps the line, keeps the column, clears the flag. -/
theorem advance_position_vtab (t : Text) :
    (t.advance_position '\x0b').position.line = t.position.line + 1 ∧
    (t.advance_position '\x0b').position.column = t.position.column ∧
    (t.advance_position '\x0b').last_was_cr = false := by
  unfold Text.advance_position
  simp

/-! ### Claims -/

/-- Claim C3: the source does NOT reset the `last_was_cr` flag after a CRLF
pair, so on input "\r\n\n" the second LF also fails to advance the line and
the cursor ends on line 2 with the flag still set — contradicting the claim
that the flag is reset and the cursor ends on line 3. -/
theorem crlf_then_lf_stays_on_line_two :
    (run (Text.with_str ['\x0d', '\x0a', '\x0a'])
        [Op.consume, Op.consume, Op.consume]).position.line = 2 ∧
    (run (Text.with_str ['\x0d', '\x0a', '\x0a'])
        [Op.consume, Op.consume, Op.consume]).last_was_cr = true := by
  decide

/-- Claim C4: consuming the two-character sequence "\r\n" advances the line
counter exactly once and leaves the column counter at 1. -/
theorem crlf_collapse (t t1 t2 : Text)
    (h1 : t.consume = (some '\x0d', t1)) (h2 : t1.consume = (some '\x0a', t2)) :
    t2.position.line = t.position.line + 1 ∧ t2.position.column = 1 := by
  obtain ⟨hp1, hc1⟩ := consume_some_position t t1 '\x0d' h1
  obtain ⟨hp2, hc2⟩ := consume_some_position t1 t2 '\x0a' h2
  rw [(advance_position_cr t).2] at hc1
  rw [advance_position_lf_of_cr t1 hc1] at hp2
  rw [hp2, hp1, (advance_position_cr t).1]
  exact ⟨rfl, rfl⟩

/-- Witness for C4 on the concrete input "\r\n". -/
theorem crlf_collapse_witness :
    (((Text.with_str ['\x0d', '\x0a']).consume.snd).consume.snd).position.line
      = (Text.with_str ['\x0d', '\x0a']).position.line + 1 ∧
    (((Text.with_str ['\x0d', '\x0a']).consume.snd).consume.snd).position.column = 1 :=
  crlf_collapse (Text.with_str ['\x0d', '\x0a'])
    ((Text.with_str ['\x0d', '\x0a']).consume.snd)
    (((Text.with_str ['\x0d', '\x0a']).consume.snd).consume.snd)
    (by decide) (by decide)

/-- Claim C5: calling `slice_from_marker` with no marker set hits the
`assert!(self.has_marker())` and panics (modelled by `none`); no slice value
is ever produced. -/
theorem slice_from_marker_no_marker (t : Text) (h : t.has_marker = false) :
    t.slice_from_marker = none := by
  obtain ⟨it, pos, nx, mk, cr⟩ := t
  cases mk
  · rfl
  · simp [Text.has_marker] at h

/-- Witness for C5 on a freshly constructed cursor. -/
theorem slice_from_marker_no_marker_witness :
    (Text.with_str ['a']).slice_from_marker = none :=
  slice_from_marker_no_marker (Text.with_str ['a']) (by decide)

/-- Claim C8: consuming a vertical tab (U+000B) increments the line counter by
1, leaves the column unchanged, and clears the CR flag. -/
theorem vtab_consume (t t' : Text) (h : t.consume = (some '\x0b', t')) :
    t'.position.line = t.position.line + 1 ∧
    t'.position.column = t.position.column ∧
    t'.last_was_cr = false := by
  obtain ⟨hp, hc⟩ := consume_some_position t t' '\x0b' h
  rw [hp, hc]
  exact advance_position_vtab t

/-- Witness for C8 on the concrete input "X\u{000b}Y" after consuming 'X'. -/
theorem vtab_consume_witness :
    ((((Text.with_str ['X', '\x0b', 'Y']).consume.snd).consume.snd)).position.line
      = ((Text.with_str ['X', '\x0b', 'Y']).consume.snd).position.line + 1 ∧
    ((((Text.with_str ['X', '\x0b', 'Y']).consume.snd).consume.snd)).position.column
      = ((Text.with_str ['X', '\x0b', 'Y']).consume.snd).position.column ∧
    ((((Text.with_str ['X', '\x0b', 'Y']).consume.snd).consume.snd)).last_was_cr = false :=
  vtab_consume ((Text.with_str ['X', '\x0b', 'Y']).consume.snd)
    ((((Text.with_str ['X', '\x0b', 'Y']).consume.snd).consume.snd)) (by decide)

/-- Claim C6: `peek_next` is idempotent and side-effect-free on `position`:
after any number `n` of consecutive peeks the next peek still returns the
value of the first peek, and the position is unchanged. -/
theorem peek_next_idempotent (t : Text) (n : Nat) :
    (((peeks t n).peek_next)).fst = ((t.peek_next)).fst ∧
    (peeks t n).position = t.position := by
  induction n with
  | zero => exact ⟨rfl, rfl⟩
  | succ n ih =>
    refine ⟨?_, ?_⟩
    · calc (((peeks t (n + 1)).peek_next)).fst
          = ((((peeks t n).peek_next).snd).peek_next).fst := rfl
        _ = (((peeks t n).peek_next)).fst := by rw [peek_next_peek_next (peeks t n)]
        _ = ((t.peek_next)).fst := ih.1
    · calc (peeks t (n + 1)).position
          = (((peeks t n).peek_next).snd).position := rfl
        _ = (peeks t n).position := peek_next_position (peeks t n)
        _ = t.position := ih.2

/-- The exhausted-cursor predicate: the underlying iterator is empty and the
lookahead buffer is empty. -/
def atEnd (t : Text) : Prop :=
  t.iter = [] ∧ t.next = none

/-- A `consume` that returns `none` happens exactly on an exhausted cursor and
leaves the state unchanged. -/
theorem consume_none (t t' : Text) (h : t.consume = (none, t')) :
    atEnd t ∧ t' = t := by
  obtain ⟨it, pos, nx, mk, cr⟩ := t
  cases nx with
  | some c0 => exact absurd (congrArg Prod.fst h) (by simp [Text.consume])
  | none =>
    cases it with
    | nil => exact ⟨⟨rfl, rfl⟩, (congrArg Prod.snd h).symm⟩
    | cons c0 rest => exact absurd (congrArg Prod.fst h) (by simp [Text.consume])

/-- Every public operation preserves exhaustion. -/
theorem atEnd_applyOp (t : Text) (op : Op) (h : atEnd t) : atEnd (applyOp t op) := by
  obtain ⟨it, pos, nx, mk, cr⟩ := t
  obtain ⟨h1, h2⟩ := h
  cases h1
  cases h2
  cases op <;> exact ⟨rfl, rfl⟩

/-- Any sequence of public operations preserves exhaustion. -/
theorem atEnd_run (t : Text) (ops : List Op) (h : atEnd t) : atEnd (run t ops) := by
  induction ops generalizing t with
  | nil => exact h
  | cons op ops ih => exact ih (applyOp t op) (atEnd_applyOp t op h)

/-- On an exhausted cursor, `consume` returns `none`. -/
theorem atEnd_consume (t : Text) (h : atEnd t) : ((t.consume)).fst = none := by
  obtain ⟨it, pos, nx, mk, cr⟩ := t
  obtain ⟨h1, h2⟩ := h
  cases h1
  cases h2
  rfl

/-- On an exhausted cursor, `peek_next` returns `none`. -/
theorem atEnd_peek (t : Text) (h : atEnd t) : ((t.peek_next)).fst = none := by
  obtain ⟨it, pos, nx, mk, cr⟩ := t
  obtain ⟨h1, h2⟩ := h
  cases h1
  cases h2
  rfl

/-- Claim C7: once a `consume` call returns `none`, every later `consume` or
`peek_next` call — after any interleaving of public operations — also returns
`none`. -/
theorem exhaustion (t t' : Text) (h : t.consume = (none, t')) (ops : List Op) :
    (((run t' ops).consume)).fst = none ∧ (((run t' ops).peek_next)).fst = none := by
  obtain ⟨hend, rfl⟩ := consume_none t t' h
  have h2 := atEnd_run t' ops hend
  exact ⟨atEnd_consume (run t' ops) h2, atEnd_peek (run t' ops) h2⟩

/-- Witness for C7: consume past the end of "a", then keep calling. -/
theorem exhaustion_witness :
    (((run (((Text.with_str ['a']).consume.snd).consume.snd)
        [Op.peek, Op.setMarker, Op.consume]).consume)).fst = none ∧
    (((run (((Text.with_str ['a']).consume.snd).consume.snd)
        [Op.peek, Op.setMarker, Op.consume]).peek_next)).fst = none :=
  exhaustion ((Text.with_str ['a']).consume.snd)
    (((Text.with_str ['a']).consume.snd).consume.snd) (by decide)
    [Op.peek, Op.setMarker, Op.consume]

/-- Every codepoint occupies at least one byte in UTF-8. -/
theorem one_le_len_utf8 (c : Char) : 1 ≤ len_utf8 c := by
  unfold len_utf8
  split_ifs <;> omega

/-- Claim C9: if `set_marker` runs while a codepoint sits in the lookahead
buffer, the marker has skipped that codepoint; querying `slice_from_marker`
before consuming it makes the source's length computation
`s.len() - iter.len() - ch.len_utf8()` go below zero, so the call panics
(modelled by `none`) even though a marker is set. -/
theorem set_marker_lookahead_underflow (t : Text) (c : Char) (h : t.next = some c) :
    ((t.set_marker)).has_marker = true ∧
    Text.slice_len (t.set_marker) t.iter < 0 ∧
    ((t.set_marker)).slice_from_marker = none := by
  obtain ⟨it, pos, nx, mk, cr⟩ := t
  obtain rfl : nx = some c := h
  have h1 : 1 ≤ len_utf8 c := one_le_len_utf8 c
  have hneg : Text.slice_len ((Text.mk it pos (some c) mk cr).set_marker) it < 0 := by
    show (byteLen it : Int) - (byteLen it : Int) - (len_utf8 c : Int) < 0
    omega
  refine ⟨rfl, hneg, ?_⟩
  show (if Text.slice_len ((Text.mk it pos (some c) mk cr).set_marker) it < 0 then none
        else if ((byteLen it : Int))
            < Text.slice_len ((Text.mk it pos (some c) mk cr).set_marker) it then none
        else takeBytes it (Text.slice_len ((Text.mk it pos (some c) mk cr).set_marker) it).toNat)
      = (none : Option (List Char))
  rw [if_pos hneg]

/-- Witness for C9: peek "ab", set the marker, slice immediately. -/
theorem set_marker_lookahead_underflow_witness :
    ((((Text.with_str ['a', 'b']).peek_next.snd).set_marker)).has_marker = true ∧
    Text.slice_len (((Text.with_str ['a', 'b']).peek_next.snd).set_marker)
        ((Text.with_str ['a', 'b']).peek_next.snd).iter < 0 ∧
    ((((Text.with_str ['a', 'b']).peek_next.snd).set_marker)).slice_from_marker = none :=
  set_marker_lookahead_underflow ((Text.with_str ['a', 'b']).peek_next.snd) 'a' (by decide)

/-- `advance_position` never decreases the line counter. -/
theorem advance_position_line_le (t : Text) (c : Char) :
    t.position.line ≤ ((t.advance_position c)).position.line := by
  unfold Text.advance_position
  split_ifs <;> simp [Position.advance_line, Position.advance_char]

/-- `advance_position` keeps the column counter at least 1. -/
theorem advance_position_column_pos (t : Text) (c : Char) (h : 1 ≤ t.position.column) :
    1 ≤ ((t.advance_position c)).position.column := by
  unfold Text.advance_position
  split_ifs <;> (try simp [Position.advance_line, Position.advance_char]) <;> omega

/-- `consume` never decreases the line counter. -/
theorem consume_line_le (t : Text) :
    t.position.line ≤ (((t.consume)).snd).position.line := by
  obtain ⟨it, pos, nx, mk, cr⟩ := t
  cases nx with
  | some c => exact advance_position_line_le (Text.mk it pos none mk cr) c
  | none =>
    cases it with
    | nil => exact le_refl _
    | cons c rest => exact advance_position_line_le (Text.mk rest pos none mk cr) c

/-- `consume` keeps the column counter at least 1. -/
theorem consume_column_pos (t : Text) (h : 1 ≤ t.position.column) :
    1 ≤ (((t.consume)).snd).position.column := by
  obtain ⟨it, pos, nx, mk, cr⟩ := t
  cases nx with
  | some c => exact advance_position_column_pos (Text.mk it pos none mk cr) c h
  | none =>
    cases it with
    | nil => exact h
    | cons c rest => exact advance_position_column_pos (Text.mk rest pos none mk cr) c h

/-- Every public operation keeps the line counter from decreasing. -/
theorem applyOp_line_le (t : Text) (op : Op) :
    t.position.line ≤ (applyOp t op).position.line := by
  cases op with
  | consume => exact consume_line_le t
  | peek => exact le_of_eq (congrArg Position.line (peek_next_position t)).symm
  | setMarker => exact le_refl _
  | clearMarker => exact le_refl _

/-- Every public operation keeps the column counter at least 1. -/
theorem applyOp_column_pos (t : Text) (op : Op) (h : 1 ≤ t.position.column) :
    1 ≤ (applyOp t op).position.column := by
  cases op with
  | consume => exact consume_column_pos t h
  | peek => exact le_of_le_of_eq h (congrArg Position.column (peek_next_position t)).symm
  | setMarker => exact h
  | clearMarker => exact h

/-- Running operations never decreases the line counter. -/
theorem run_line_le (t : Text) (ops : List Op) :
    t.position.line ≤ (run t ops).position.line := by
  induction ops generalizing t with
  | nil => exact le_refl _
  | cons op ops ih => exact le_trans (applyOp_line_le t op) (ih (applyOp t op))

/-- Running operations keeps the column counter at least 1. -/
theorem run_column_pos (t : Text) (ops : List Op) (h : 1 ≤ t.position.column) :
    1 ≤ (run t ops).position.column := by
  induction ops generalizing t with
  | nil => exact h
  | cons op ops ih => exact ih (applyOp t op) (applyOp_column_pos t op h)

/-- Running an operation list in two stages. -/
theorem run_append (t : Text) (ops1 ops2 : List Op) :
    run t (ops1 ++ ops2) = run (run t ops1) ops2 := by
  induction ops1 generalizing t with
  | nil => rfl
  | cons op ops ih => exact ih (applyOp t op)

/-- Claim C10: from any cursor built by `with_str`, along any sequence of
public operations the column counter stays at least 1 and the line counter
never decreases (counters are modelled as unbounded naturals, so counter
overflow is out of scope, as the claim stipulates). -/
theorem position_counters_invariant (s : List Char) (ops1 ops2 : List Op) :
    1 ≤ (run (Text.with_str s) ops1).position.column ∧
    (run (Text.with_str s) ops1).position.line
      ≤ (run (Text.with_str s) (ops1 ++ ops2)).position.line := by
  constructor
  · exact run_column_pos (Text.with_str s) ops1 (le_refl 1)
  · rw [run_append]
    exact run_line_le (run (Text.with_str s) ops1) ops2

/-- Byte length of a cons cell. -/
theorem byteLen_cons (c : Char) (cs : List Char) :
    byteLen (c :: cs) = len_utf8 c + byteLen cs := by
  simp [byteLen]

/-- Byte length distributes over append. -/
theorem byteLen_append (p q : List Char) :
    byteLen (p ++ q) = byteLen p + byteLen q := by
  simp [byteLen]

/-- Unfolding equation for `takeBytes` on a cons cell and a positive count. -/
theorem takeBytes_cons (c : Char) (cs : List Char) (n : Nat) (h : 1 ≤ n) :
    takeBytes (c :: cs) n =
      if len_utf8 c ≤ n then (takeBytes cs (n - len_utf8 c)).map (fun l => c :: l)
      else none := by
  obtain ⟨k, rfl⟩ : ∃ k, n = k + 1 := ⟨n - 1, by omega⟩
  rfl

/-- Taking exactly the bytes of a prefix recovers that prefix. -/
theorem takeBytes_append (p q : List Char) :
    takeBytes (p ++ q) (byteLen p) = some p := by
  induction p with
  | nil =>
    show takeBytes q 0 = some []
    cases q <;> rfl
  | cons c p' ih =>
    have h1 : 1 ≤ len_utf8 c := one_le_len_utf8 c
    rw [List.cons_append, byteLen_cons,
        takeBytes_cons c (p' ++ q) (len_utf8 c + byteLen p') (by omega),
        if_pos (by omega : len_utf8 c ≤ len_utf8 c + byteLen p'),
        Nat.add_sub_cancel_left, ih]
    rfl

/-- The codepoints not yet returned by `consume`: the lookahead buffer first,
then the underlying iterator. This is the unread remainder of the source at
the cursor's logical read position. -/
def logicalRest (t : Text) : List Char :=
  match t.next with
  | some c => c :: t.iter
  | none => t.iter

/-- Unfolding `slice_from_marker` once the stored marker is known. -/
theorem slice_from_marker_eq (t : Text) (m : List Char) (hm : t.marker = some m) :
    t.slice_from_marker =
      (if Text.slice_len t m < 0 then none
       else if (byteLen m : Int) < Text.slice_len t m then none
       else takeBytes m (Text.slice_len t m).toNat) := by
  obtain ⟨it, pos, nx, mk, cr⟩ := t
  obtain rfl : mk = some m := hm
  rfl

/-- When the stored marker is the consumed span `p` followed by the unread
remainder, `slice_from_marker` returns exactly `p`. -/
theorem slice_from_marker_of_suffix (t : Text) (m p : List Char)
    (hm : t.marker = some m) (hp : m = p ++ logicalRest t) :
    t.slice_from_marker = some p := by
  have hsl : Text.slice_len t m = (byteLen p : Int) := by
    obtain ⟨it, pos, nx, mk, cr⟩ := t
    cases nx with
    | none =>
      show ((byteLen m : Int)) - (byteLen it : Int) = (byteLen p : Int)
      have : m = p ++ it := hp
      subst this
      rw [byteLen_append]
      push_cast
      ring
    | some c =>
      show ((byteLen m : Int)) - (byteLen it : Int) - (len_utf8 c : Int)
          = (byteLen p : Int)
      have : m = p ++ (c :: it) := hp
      subst this
      rw [byteLen_append, byteLen_cons]
      push_cast
      ring
  have hrest : ∃ q, m = p ++ q := ⟨logicalRest t, hp⟩
  obtain ⟨q, rfl⟩ := hrest
  rw [slice_from_marker_eq t (p ++ q) hm, hsl]
  rw [if_neg (by omega), if_neg (by rw [byteLen_append]; push_cast; omega)]
  have ht : ((byteLen p : Int)).toNat = byteLen p := by omega
  rw [ht]
  exact takeBytes_append p q

/-- `advance_position` only touches the position and the CR flag. -/
theorem advance_position_fields (t : Text) (c : Char) :
    ((t.advance_position c)).iter = t.iter ∧
    ((t.advance_position c)).next = t.next ∧
    ((t.advance_position c)).marker = t.marker := by
  unfold Text.advance_position
  split_ifs <;> simp

/-- A `consume` or `peek_next` call keeps the marker and only shortens the
unread remainder: the old remainder is the emitted span followed by the new
one. -/
theorem applyOp_marker_suffix (t : Text) (op : Op)
    (h1 : op = Op.consume ∨ op = Op.peek) :
    (applyOp t op).marker = t.marker ∧
    ∃ q, logicalRest t = q ++ logicalRest (applyOp t op) := by
  obtain ⟨it, pos, nx, mk, cr⟩ := t
  cases h1 with
  | inl h =>
    subst h
    cases nx with
    | some c =>
      refine ⟨((advance_position_fields (Text.mk it pos none mk cr) c)).2.2, [c], ?_⟩
      show c :: it = [c] ++ logicalRest (applyOp (Text.mk it pos (some c) mk cr) Op.consume)
      have h2 := advance_position_fields (Text.mk it pos none mk cr) c
      simp [applyOp, Text.consume, logicalRest, h2.1, h2.2.1]
    | none =>
      cases it with
      | nil => exact ⟨rfl, [], rfl⟩
      | cons c rest =>
        refine ⟨((advance_position_fields (Text.mk rest pos none mk cr) c)).2.2, [c], ?_⟩
        show c :: rest = [c] ++ logicalRest (applyOp (Text.mk (c :: rest) pos none mk cr) Op.consume)
        have h2 := advance_position_fields (Text.mk rest pos none mk cr) c
        simp [applyOp, Text.consume, logicalRest, h2.1, h2.2.1]
  | inr h =>
    subst h
    cases nx with
    | some c => exact ⟨rfl, [], rfl⟩
    | none =>
      cases it with
      | nil => exact ⟨rfl, [], rfl⟩
      | cons c rest => exact ⟨rfl, [], rfl⟩

/-- Running any mix of `consume` and `peek_next` calls keeps the marker and
splits the old unread remainder as emitted span plus new remainder. -/
theorem run_marker_suffix (t : Text) (ops : List Op)
    (hmem : ∀ op ∈ ops, op = Op.consume ∨ op = Op.peek) :
    (run t ops).marker = t.marker ∧
    ∃ q, logicalRest t = q ++ logicalRest (run t ops) := by
  induction ops generalizing t with
  | nil => exact ⟨rfl, [], rfl⟩
  | cons op ops ih =>
    have hop := applyOp_marker_suffix t op (hmem op (by simp))
    have hrec := ih (applyOp t op) (fun o ho => hmem o (by simp [ho]))
    refine ⟨hrec.1.trans hop.1, ?_⟩
    obtain ⟨q1, hq1⟩ := hop.2
    obtain ⟨q2, hq2⟩ := hrec.2
    refine ⟨q1 ++ q2, ?_⟩
    show logicalRest t = (q1 ++ q2) ++ logicalRest (run (applyOp t op) ops)
    rw [hq1, hq2, List.append_assoc]

/-- Amended claim C1 (round-trip): if `set_marker` is called while the
lookahead buffer is empty, then after any interleaving of `consume` and
`peek_next` calls, `slice_from_marker` returns exactly the span of source
codepoints read between the marker position A and the current read position B
(the `p` with: remainder at A = `p` ++ remainder at B), independent of the
number of peeks. The lookahead proviso is forced by the counterexample: a
codepoint buffered by `peek_next` when `set_marker` runs is skipped by the
marker. -/
theorem slice_round_trip (t : Text) (ops : List Op) (hnx : t.next = none)
    (hmem : ∀ op ∈ ops, op = Op.consume ∨ op = Op.peek) :
    ∃ p, logicalRest (t.set_marker) = p ++ logicalRest (run (t.set_marker) ops) ∧
      (run (t.set_marker) ops).slice_from_marker = some p := by
  have hmk : (t.set_marker).marker = some t.iter := rfl
  have hlr : logicalRest (t.set_marker) = t.iter := by
    obtain ⟨it, pos, nx, mk, cr⟩ := t
    obtain rfl : nx = none := hnx
    rfl
  obtain ⟨h1, p, h2⟩ := run_marker_suffix (t.set_marker) ops hmem
  refine ⟨p, h2, ?_⟩
  apply slice_from_marker_of_suffix (run (t.set_marker) ops) t.iter p
  · rw [h1, hmk]
  · rw [← hlr, h2]

/-- Witness for the amended C1 on the source "xab": consume 'x', set the
marker, then consume 'a', peek, peek, consume 'b'; the slice is "ab". -/
theorem slice_round_trip_witness :
    ∃ p, logicalRest ((((Text.with_str ['x', 'a', 'b']).consume.snd)).set_marker)
        = p ++ logicalRest (run ((((Text.with_str ['x', 'a', 'b']).consume.snd)).set_marker)
            [Op.consume, Op.peek, Op.peek, Op.consume]) ∧
      (run ((((Text.with_str ['x', 'a', 'b']).consume.snd)).set_marker)
          [Op.consume, Op.peek, Op.peek, Op.consume]).slice_from_marker = some p :=
  slice_round_trip ((Text.with_str ['x', 'a', 'b']).consume.snd)
    [Op.consume, Op.peek, Op.peek, Op.consume] (by decide) (by decide)

/-- Claim C2: the failing input. On source "ab", after `peek_next()` the
logical read position is still before 'a' (the buffered, unconsumed
codepoint), yet `set_marker()` stores the underlying iterator, which has
already passed 'a': the marker checkpoint is "b", strictly ahead of the read
position, and the peeked codepoint lies before the marker, not at it. -/
theorem set_marker_ignores_lookahead :
    ((((Text.with_str ['a', 'b']).peek_next.snd).set_marker)).marker = some ['b'] ∧
    ((((Text.with_str ['a', 'b']).peek_next.snd).set_marker)).next = some 'a' ∧
    ((((Text.with_str ['a', 'b']).peek_next.snd).set_marker)).consume.fst = some 'a' := by
  decide

/-- Claim C1: the failing input. On source "ab": peek (buffering 'a'), set
the marker at read position A (before 'a', i.e. index 0), consume 'a' so the
read position B is index 1. The substring of the source from A to B is "a",
but `slice_from_marker` returns "" — the slice is not independent of the
peek that preceded `set_marker`. -/
theorem slice_after_peek_set_marker_drops_char :
    ((((Text.with_str ['a', 'b']).peek_next.snd).set_marker)).consume.fst = some 'a' ∧
    (((((Text.with_str ['a', 'b']).peek_next.snd).set_marker)).consume.snd).slice_from_marker
      = some [] ∧
    (((((Text.with_str ['a', 'b']).peek_next.snd).set_marker)).consume.snd).slice_from_marker
      ≠ some ['a'] := by
  decide

end Chscn
